import Mathlib

/- Verification of the structured-extraction contract layer
   (src/llm/interface.py) and of the timeline synthesis engine
   (src/agents/timeline_construction.py) of the agentic-news-rag
   repository, against its natural-language specification.

   Machine integers and floats are modelled by Int and Rat; Python
   datetimes are modelled by Int timestamps with `dtMax` standing for
   datetime.max; the generative oracle is an external collaborator and
   is modelled as an explicit input (a function from attempt number to
   a reply, or an already-decoded structured response). -/

/-- JSON values as produced by Python `json.loads`.  Numbers keep their
raw lexeme (no claim inspects numeric values); strings are decoded
(code points outside the valid scalar range, e.g. lone surrogates that
Python would keep, are collapsed by `Char.ofNat`, which no claim
observes). -/
inductive Json where
  | null : Json
  | bool (b : Bool) : Json
  | num (raw : String) : Json
  | str (s : String) : Json
  | arr (items : List Json) : Json
  | obj (fields : List (String × Json)) : Json

/-- JSON whitespace accepted by Python's json decoder: space, tab,
newline, carriage return. -/
def jsonWs (c : Char) : Bool :=
  c == ' ' || c == '\t' || c == '\n' || c == '\r'

/-- Skip JSON whitespace. -/
def skipJsonWs (cs : List Char) : List Char :=
  cs.dropWhile (fun c => jsonWs c)

/-- Hexadecimal digit test for \uXXXX escapes. -/
def isHexCh (c : Char) : Bool :=
  (('0' ≤ c && c ≤ '9') || ('a' ≤ c && c ≤ 'f') || ('A' ≤ c && c ≤ 'F'))

/-- Value of a hexadecimal digit. -/
def hexVal (c : Char) : Nat :=
  if '0' ≤ c && c ≤ '9' then c.toNat - '0'.toNat
  else if 'a' ≤ c && c ≤ 'f' then c.toNat - 'a'.toNat + 10
  else c.toNat - 'A'.toNat + 10

/-- Parse exactly four hex digits (the XXXX of a \uXXXX escape). -/
def parseHex4 (cs : List Char) : Option (Nat × List Char) :=
  match cs with
  | a :: b :: c :: d :: rest =>
    if isHexCh a && isHexCh b && isHexCh c && isHexCh d then
      some (((hexVal a * 16 + hexVal b) * 16 + hexVal c) * 16 + hexVal d, rest)
    else none
  | _ => none

/-- Single-character JSON string escapes. -/
def simpleEscape (c : Char) : Option Char :=
  if c = '"' then some '"'
  else if c = '\\' then some '\\'
  else if c = '/' then some '/'
  else if c = 'b' then some '\x08'
  else if c = 'f' then some '\x0c'
  else if c = 'n' then some '\n'
  else if c = 'r' then some '\r'
  else if c = 't' then some '\t'
  else none

/-- Parse the body of a JSON string literal after the opening quote, in
Python's strict mode: raw control characters below 0x20 are rejected,
\uXXXX escapes are decoded, and a high surrogate followed by an escaped
low surrogate is combined. -/
def parseStringBody : Nat → List Char → Option (List Char × List Char)
  | 0, _ => none
  | fuel + 1, cs =>
    match cs with
    | [] => none
    | c :: rest =>
      if c = '"' then some ([], rest)
      else if c = '\\' then
        match rest with
        | [] => none
        | e :: rest2 =>
          if e = 'u' then
            match parseHex4 rest2 with
            | none => none
            | some (v, rest3) =>
              if 0xD800 ≤ v && v ≤ 0xDBFF then
                match rest3 with
                | '\\' :: 'u' :: rest4 =>
                  match parseHex4 rest4 with
                  | some (w, rest5) =>
                    if 0xDC00 ≤ w && w ≤ 0xDFFF then
                      match parseStringBody fuel rest5 with
                      | some (s, r) =>
                        some (Char.ofNat (0x10000 + (v - 0xD800) * 0x400 + (w - 0xDC00)) :: s, r)
                      | none => none
                    else
                      match parseStringBody fuel rest3 with
                      | some (s, r) => some (Char.ofNat v :: s, r)
                      | none => none
                  | none =>
                    match parseStringBody fuel rest3 with
                    | some (s, r) => some (Char.ofNat v :: s, r)
                    | none => none
                | _ =>
                  match parseStringBody fuel rest3 with
                  | some (s, r) => some (Char.ofNat v :: s, r)
                  | none => none
              else
                match parseStringBody fuel rest3 with
                | some (s, r) => some (Char.ofNat v :: s, r)
                | none => none
          else
            match simpleEscape e with
            | some d =>
              match parseStringBody fuel rest2 with
              | some (s, r) => some (d :: s, r)
              | none => none
            | none => none
      else if c.toNat < 0x20 then none
      else
        match parseStringBody fuel rest with
        | some (s, r) => some (c :: s, r)
        | none => none

/-- Decimal digit run. -/
def digitSpan (cs : List Char) : List Char × List Char :=
  (cs.takeWhile Char.isDigit, cs.dropWhile Char.isDigit)

/-- Lex a JSON number. Grammar as in Python's json NUMBER_RE:
optional minus, integer part 0 or [1-9][0-9]*, optional fraction
.[0-9]+, optional exponent [eE][+-]?[0-9]+.  Returns the raw lexeme. -/
def lexJsonNumber (cs : List Char) : Option (List Char × List Char) :=
  let (sign, cs1) :=
    match cs with
    | '-' :: rest => (['-'], rest)
    | _ => (([] : List Char), cs)
  match cs1 with
  | [] => none
  | d :: rest1 =>
    if !d.isDigit then none
    else
      let (intPart, cs2) :=
        if d = '0' then ([d], rest1)
        else
          let (ds, r) := digitSpan rest1
          (d :: ds, r)
      let (fracPart, cs3) :=
        match cs2 with
        | '.' :: r =>
          let (ds, r2) := digitSpan r
          if ds = [] then (([] : List Char), cs2) else ('.' :: ds, r2)
        | _ => (([] : List Char), cs2)
      let (expPart, cs4) :=
        match cs3 with
        | e :: r =>
          if e = 'e' || e = 'E' then
            let (esign, r1) :=
              match r with
              | s :: r2 => if s = '+' || s = '-' then ([s], r2) else (([] : List Char), r)
              | [] => (([] : List Char), r)
            let (ds, r2) := digitSpan r1
            if ds = [] then (([] : List Char), cs3) else (e :: esign ++ ds, r2)
          else (([] : List Char), cs3)
        | [] => (([] : List Char), cs3)
      some (sign ++ intPart ++ fracPart ++ expPart, cs4)

mutual

/-- Parse one JSON value.  Dispatch order mirrors Python's scanner:
string, object, array, null, true, false, number, then the constants
NaN, Infinity and -Infinity. -/
def parseJVal : Nat → List Char → Option (Json × List Char)
  | 0, _ => none
  | fuel + 1, cs =>
    match cs with
    | [] => none
    | c :: rest =>
      if c = '"' then
        match parseStringBody fuel rest with
        | some (s, r) => some (.str (String.mk s), r)
        | none => none
      else if c = '{' then
        match skipJsonWs rest with
        | '}' :: r => some (.obj [], r)
        | cs2 =>
          match parseJMembers fuel cs2 with
          | some (fields, r) => some (.obj fields, r)
          | none => none
      else if c = '[' then
        match skipJsonWs rest with
        | ']' :: r => some (.arr [], r)
        | cs2 =>
          match parseJItems fuel cs2 with
          | some (items, r) => some (.arr items, r)
          | none => none
      else if ['n', 'u', 'l', 'l'].isPrefixOf cs then some (.null, cs.drop 4)
      else if ['t', 'r', 'u', 'e'].isPrefixOf cs then some (.bool true, cs.drop 4)
      else if ['f', 'a', 'l', 's', 'e'].isPrefixOf cs then some (.bool false, cs.drop 5)
      else
        match lexJsonNumber cs with
        | some (lexeme, r) => some (.num (String.mk lexeme), r)
        | none =>
          if ['N', 'a', 'N'].isPrefixOf cs then some (.num (String.mk ['N', 'a', 'N']), cs.drop 3)
          else if ['I', 'n', 'f', 'i', 'n', 'i', 't', 'y'].isPrefixOf cs then
            some (.num (String.mk ['I', 'n', 'f']), cs.drop 8)
          else if ['-', 'I', 'n', 'f', 'i', 'n', 'i', 't', 'y'].isPrefixOf cs then
            some (.num (String.mk ['-', 'I', 'n', 'f']), cs.drop 9)
          else none

/-- Parse the members of a JSON object (positioned at the first key,
whitespace already skipped). -/
def parseJMembers : Nat → List Char → Option (List (String × Json) × List Char)
  | 0, _ => none
  | fuel + 1, cs =>
    match cs with
    | '"' :: rest =>
      match parseStringBody fuel rest with
      | some (k, r1) =>
        match skipJsonWs r1 with
        | ':' :: r3 =>
          match parseJVal fuel (skipJsonWs r3) with
          | some (v, r4) =>
            match skipJsonWs r4 with
            | ',' :: r6 =>
              match parseJMembers fuel (skipJsonWs r6) with
              | some (ms, r7) => some ((String.mk k, v) :: ms, r7)
              | none => none
            | '}' :: r6 => some ([(String.mk k, v)], r6)
            | _ => none
          | none => none
        | _ => none
      | none => none
    | _ => none

/-- Parse the items of a JSON array (positioned at the first item,
whitespace already skipped). -/
def parseJItems : Nat → List Char → Option (List Json × List Char)
  | 0, _ => none
  | fuel + 1, cs =>
    match parseJVal fuel cs with
    | some (v, r1) =>
      match skipJsonWs r1 with
      | ',' :: r2 =>
        match parseJItems fuel (skipJsonWs r2) with
        | some (vs, r3) => some (v :: vs, r3)
        | none => none
      | ']' :: r2 => some ([v], r2)
      | _ => none
    | none => none

end

/-- Model of Python `json.loads` (strings are modelled as their
character lists): leading and trailing JSON whitespace allowed,
trailing data rejected.  The fuel is ample: every recursive descent
consumes at least one character. -/
def jsonLoads (s : List Char) : Option Json :=
  let cs := skipJsonWs s
  match parseJVal (cs.length + 2) cs with
  | some (v, rest) => if skipJsonWs rest = [] then some v else none
  | none => none

/-- Python `\s` on ASCII input: space, tab, newline, carriage return,
vertical tab, form feed. -/
def reWs (c : Char) : Bool :=
  c == ' ' || c == '\t' || c == '\n' || c == '\r' || c == '\x0b' || c == '\x0c'

/-- Python `str.strip()` whitespace (ASCII range). -/
def pyStrip (cs : List Char) : List Char :=
  ((cs.dropWhile reWs).reverse.dropWhile reWs).reverse

/-- Case-insensitive prefix test (the pattern is given lowercase). -/
def ciIsPrefix (pat : List Char) (cs : List Char) : Bool :=
  (cs.take pat.length).map Char.toLower == pat

/-- Find the earliest occurrence of a (case-insensitively matched)
pattern and return the suffix after it. -/
def dropThroughCi (pat : List Char) : Nat → List Char → Option (List Char)
  | 0, _ => none
  | fuel + 1, cs =>
    match cs with
    | [] => none
    | _ :: rest =>
      if ciIsPrefix pat cs then some (cs.drop pat.length)
      else dropThroughCi pat fuel rest

/-- One pass of `re.sub(r'<think>.*?</think>', '', content)` with
DOTALL|IGNORECASE: at each position, a case-insensitive `<think>`
followed somewhere by a case-insensitive `</think>` is removed
(non-greedy: up to the nearest close); a `<think>` with no close is
left in place. -/
def stripThinkCi : Nat → List Char → List Char
  | 0, cs => cs
  | fuel + 1, cs =>
    match cs with
    | [] => []
    | c :: rest =>
      if ciIsPrefix ['<', 't', 'h', 'i', 'n', 'k', '>'] cs then
        match dropThroughCi ['<', '/', 't', 'h', 'i', 'n', 'k', '>'] cs.length (cs.drop 7) with
        | some after => stripThinkCi fuel after
        | none => c :: stripThinkCi fuel rest
      else c :: stripThinkCi fuel rest

/-- Exact (case-sensitive) prefix test for the second, uppercase-only
substitution pass. -/
def csIsPrefix (pat : List Char) (cs : List Char) : Bool :=
  pat.isPrefixOf cs

/-- Find the earliest exact occurrence of a pattern and return the
suffix after it. -/
def dropThroughCs (pat : List Char) : Nat → List Char → Option (List Char)
  | 0, _ => none
  | fuel + 1, cs =>
    match cs with
    | [] => none
    | _ :: rest =>
      if csIsPrefix pat cs then some (cs.drop pat.length)
      else dropThroughCs pat fuel rest

/-- One pass of `re.sub(r'<THINK>.*?</THINK>', '', content)` with
DOTALL (case-sensitive; in the source this second pass is redundant
after the case-insensitive one but is embedded faithfully). -/
def stripThinkUpper : Nat → List Char → List Char
  | 0, cs => cs
  | fuel + 1, cs =>
    match cs with
    | [] => []
    | c :: rest =>
      if csIsPrefix ['<', 'T', 'H', 'I', 'N', 'K', '>'] cs then
        match dropThroughCs ['<', '/', 'T', 'H', 'I', 'N', 'K', '>'] cs.length (cs.drop 7) with
        | some after => stripThinkUpper fuel after
        | none => c :: stripThinkUpper fuel rest
      else c :: stripThinkUpper fuel rest

/-- `LLMInterface._strip_thinking_blocks`: remove thinking blocks
(both substitution passes) and strip surrounding whitespace. -/
def stripThinkingBlocks (cs : List Char) : List Char :=
  let c1 := stripThinkCi cs.length cs
  let c2 := stripThinkUpper c1.length c1
  pyStrip c2

/-- A single-pattern `re.sub` scan: at each position try the matcher
(returning match length and replacement); on a match emit the
replacement and continue after the matched span, otherwise emit the
character and advance.  This is re.sub's left-to-right non-overlapping
single pass. -/
def subScan (m : List Char → Option (Nat × List Char)) : Nat → List Char → List Char
  | 0, cs => cs
  | _ + 1, [] => []
  | fuel + 1, c :: rest =>
    match m (c :: rest) with
    | some (len, rep) => rep ++ subScan m fuel ((c :: rest).drop len)
    | none => c :: subScan m fuel rest

/-- Matcher for `,\s*}` and `,\s*]` (close is '}' or ']'): a comma
whose first following non-whitespace character is the closer. -/
def matchCommaClose (close : Char) (cs : List Char) : Option (Nat × List Char) :=
  match cs with
  | c :: rest =>
    if c = ',' then
      let ws := rest.takeWhile reWs
      match rest.drop ws.length with
      | d :: _ => if d = close then some (ws.length + 2, [close]) else none
      | [] => none
    else none
  | [] => none

/-- Matcher for the literal two-character sequence backslash-n,
replaced by a space. -/
def matchBackslashN (cs : List Char) : Option (Nat × List Char) :=
  match cs with
  | c :: d :: _ => if c = '\\' ∧ d = 'n' then some (2, [' ']) else none
  | _ => none

/-- Matcher for the literal two-character sequence backslash-quote,
replaced by a quote. -/
def matchBackslashQuote (cs : List Char) : Option (Nat × List Char) :=
  match cs with
  | c :: d :: _ => if c = '\\' ∧ d = '"' then some (2, ['"']) else none
  | _ => none

/-- Matcher for `"\s*\n\s*"`: a quote followed by a whitespace run that
contains a newline and ends at another quote; the whole span collapses
to one quote. -/
def matchQuoteNlQuote (cs : List Char) : Option (Nat × List Char) :=
  match cs with
  | c :: rest =>
    if c = '"' then
      let ws := rest.takeWhile reWs
      if ws.contains '\n' then
        match rest.drop ws.length with
        | d :: _ => if d = '"' then some (ws.length + 2, ['"']) else none
        | [] => none
      else none
    else none
  | [] => none

/-- One full `re.sub` pass for one pattern. -/
def applySub (m : List Char → Option (Nat × List Char)) (cs : List Char) : List Char :=
  subScan m cs.length cs

/-- `LLMInterface._clean_json_string`: the five repair substitutions,
applied sequentially in source order. -/
def cleanJsonString (cs : List Char) : List Char :=
  let s1 := applySub (matchCommaClose '}') cs
  let s2 := applySub (matchCommaClose ']') s1
  let s3 := applySub matchBackslashN s2
  let s4 := applySub matchBackslashQuote s3
  applySub matchQuoteNlQuote s4

/-- Helper for the array-span search: the prefix of `cs` up to and
including its last ']' (None if there is none). -/
def upToLastClose (cs : List Char) : Option (List Char) :=
  match cs.reverse.dropWhile (fun c => !(c == ']')) with
  | [] => none
  | r => some r.reverse

/-- `re.search(r'\[.*\]', content, re.DOTALL)`: the match, when it
exists, runs from the first '[' to the last ']' after it (leftmost
start, greedy extent). -/
def arraySpan (cs : List Char) : Option (List Char) :=
  match cs.dropWhile (fun c => !(c == '[')) with
  | [] => none
  | _ :: rest =>
    match upToLastClose rest with
    | none => none
    | some body => some ('[' :: body)

/-- Scanner for the object regex `\{[^{}]*(?:\{[^{}]*\}[^{}]*)*\}`
after the opening brace: braces may nest to depth one only; the match
ends at the first outer-level '}'.  Returns the matched body
(including the final '}') and the remaining input. -/
def objScanGo : Nat → List Char → Bool → Option (List Char × List Char)
  | 0, _, _ => none
  | _ + 1, [], _ => none
  | fuel + 1, c :: cs, inner =>
    if c = '{' then
      if inner then none
      else
        match objScanGo fuel cs true with
        | some (body, rest) => some (c :: body, rest)
        | none => none
    else if c = '}' then
      if inner then
        match objScanGo fuel cs false with
        | some (body, rest) => some (c :: body, rest)
        | none => none
      else some ([c], cs)
    else
      match objScanGo fuel cs inner with
      | some (body, rest) => some (c :: body, rest)
      | none => none

/-- Attempt the object regex at the current position. -/
def matchObjAt (cs : List Char) : Option (List Char × List Char) :=
  match cs with
  | c :: rest =>
    if c = '{' then
      match objScanGo (rest.length + 1) rest false with
      | some (body, r) => some ('{' :: body, r)
      | none => none
    else none
  | [] => none

/-- `re.search` of the object regex: leftmost match. -/
def findObjSpan : Nat → List Char → Option (List Char)
  | 0, _ => none
  | fuel + 1, cs =>
    match cs with
    | [] => none
    | _ :: rest =>
      match matchObjAt cs with
      | some (span, _) => some span
      | none => findObjSpan fuel rest

/-- `re.findall` of the object regex: all leftmost non-overlapping
matches. -/
def findAllObjSpans : Nat → List Char → List (List Char)
  | 0, _ => []
  | fuel + 1, cs =>
    match cs with
    | [] => []
    | _ :: rest =>
      match matchObjAt cs with
      | some (span, r) => span :: findAllObjSpans fuel r
      | none => findAllObjSpans fuel rest

/-- `LLMInterface._extract_json_objects_from_array`: regex-extract
brace-delimited spans and keep those that parse to a dict. -/
def extractJsonObjectsFromArray (jsonStr : List Char) : List Json :=
  (findAllObjSpans jsonStr.length jsonStr).filterMap (fun objStr =>
    match jsonLoads objStr with
    | some (.obj fields) => some (Json.obj fields)
    | some _ => none
    | none => none)

/-- `LLMInterface._parse_json_array`.  The `.error` values model the
`raise JSONParseError` statements, which are caught neither by the
surrounding `except json.JSONDecodeError` nor inside this function. -/
def parseJsonArray (content : List Char) : Except Unit (List Json) :=
  match jsonLoads content with
  | some (.arr items) => .ok items
  | some _ => .error ()
  | none =>
    match arraySpan content with
    | none => .ok []
    | some span =>
      let jsonStr := cleanJsonString span
      match jsonLoads jsonStr with
      | some (.arr items) => .ok items
      | some _ => .error ()
      | none => .ok (extractJsonObjectsFromArray jsonStr)

/-- `LLMInterface._parse_json_object`. -/
def parseJsonObject (content : List Char) : Except Unit (List (String × Json)) :=
  match jsonLoads content with
  | some (.obj fields) => .ok fields
  | some _ => .error ()
  | none =>
    match findObjSpan content.length content with
    | none => .ok []
    | some span =>
      let jsonStr := cleanJsonString span
      match jsonLoads jsonStr with
      | some (.obj fields) => .ok fields
      | some _ => .error ()
      | none => .ok []

/-- `LLMInterface._parse_json_any`. -/
def parseJsonAny (content : List Char) : Except Unit Json :=
  match jsonLoads content with
  | some v => .ok v
  | none =>
    match parseJsonObject content with
    | .ok fields => .ok (.obj fields)
    | .error _ =>
      match parseJsonArray content with
      | .ok items => .ok (.arr items)
      | .error _ => .ok (.obj [])

/-- Requested output types of `prompt_llm`. -/
inductive OutputType where
  | text
  | jsonArray
  | jsonObject
  | jsonAny

/-- Typed results of `prompt_llm`.  `pyNone` models Python's implicit
None returned when the retry loop runs zero times. -/
inductive PromptResult where
  | text (s : String)
  | jsonArr (items : List Json)
  | jsonObj (fields : List (String × Json))
  | jsonAnyVal (v : Json)
  | pyNone

/-- Exceptions that can escape `prompt_llm`. -/
inductive PromptErr where
  | valueError
  | llmError

/-- One oracle attempt: a transport/API failure, or a raw completion
text (the empty string models an empty/None completion). -/
inductive OracleReply where
  | transportFail
  | content (raw : String)

/-- `LLMInterface._process_response`. -/
def processResponse (raw : String) (ot : OutputType) (stripThinking : Bool) :
    Except Unit PromptResult :=
  let c := if stripThinking then stripThinkingBlocks raw.data else raw.data
  match ot with
  | .text => .ok (.text (String.mk (pyStrip c)))
  | .jsonArray =>
    match parseJsonArray c with
    | .ok items => .ok (.jsonArr items)
    | .error e => .error e
  | .jsonObject =>
    match parseJsonObject c with
    | .ok fields => .ok (.jsonObj fields)
    | .error e => .error e
  | .jsonAny =>
    match parseJsonAny c with
    | .ok v => .ok (.jsonAnyVal v)
    | .error e => .error e

/-- Whether one attempt of the retry loop fails: transport failure,
empty completion (the raised LLMError is caught by the loop's own
handler), or a parse error escaping `_process_response`. -/
def attemptFails (reply : OracleReply) (ot : OutputType) (stripThinking : Bool) : Bool :=
  match reply with
  | .transportFail => true
  | .content raw =>
    raw == "" ||
      (match processResponse raw ot stripThinking with
       | .ok _ => false
       | .error _ => true)

/-- The retry loop of `prompt_llm` (lines 120-144): every exception in
an attempt is caught; the last attempt's exception is converted to
LLMError; with zero configured retries the loop body never runs and
Python returns None. -/
def promptLoop (oracle : Nat → OracleReply) (ot : OutputType) (stripThinking : Bool) :
    Nat → Nat → Except PromptErr PromptResult
  | 0, _ => .ok .pyNone
  | remaining + 1, attempt =>
    let failCont : Except PromptErr PromptResult :=
      if remaining = 0 then .error .llmError
      else promptLoop oracle ot stripThinking remaining (attempt + 1)
    match oracle attempt with
    | .transportFail => failCont
    | .content raw =>
      if raw = "" then failCont
      else
        match processResponse raw ot stripThinking with
        | .ok r => .ok r
        | .error _ => failCont

/-- Configuration of the interface relevant to `prompt_llm`. -/
structure LLMSettings where
  defaultTemperature : ℚ
  defaultMaxTokens : Int
  maxRetries : Nat

/-- Lines 98-103 of `prompt_llm`: `max_tokens=100000000` rebinds the
parameter before the is-None defaulting, so the effective limit never
depends on the caller's argument or the configured default. -/
def effectiveMaxTokens (maxTokensArg : Option Int) (defaultMaxTokens : Int) : Int :=
  let maxTokens : Option Int := some 100000000
  match maxTokens with
  | none => defaultMaxTokens
  | some v => v

/-- `LLMInterface.prompt_llm`: validation, then the retry loop.  The
oracle (the chat-completion endpoint) is an explicit input. -/
def promptLLM (cfg : LLMSettings) (oracle : Nat → OracleReply) (prompt : String)
    (temperature : Option ℚ) (maxTokensArg : Option Int) (ot : OutputType)
    (stripThinking : Bool) : Except PromptErr PromptResult :=
  let temp := temperature.getD cfg.defaultTemperature
  let maxTokens := effectiveMaxTokens maxTokensArg cfg.defaultMaxTokens
  if pyStrip prompt.data = [] then .error .valueError
  else if ¬((0 : ℚ) ≤ temp ∧ temp ≤ 2) then .error .valueError
  else if maxTokens ≤ 0 then .error .valueError
  else promptLoop oracle ot stripThinking cfg.maxRetries 0

/-- Python datetimes are modelled as Int timestamps (microseconds);
`dtMax` models `datetime.max` (9999-12-31 23:59:59.999999), the
largest representable datetime, used by the sort as the key for
undated events.  A valid datetime never exceeds it. -/
def dtMax : Int := 253402300799999999

/-- `ExtractedEvent` (src/agents/information_extraction.py). -/
structure ExtractedEvent where
  description : String
  date : Option Int
  date_text : String
  entities : List String
  confidence : ℚ
  article_id : String
  source_text : String
deriving DecidableEq

/-- `TimelineEvent` (src/agents/timeline_construction.py), with the
dataclass defaults. -/
structure TimelineEvent where
  id : String
  description : String
  date : Option Int
  date_text : String
  estimated_date : Option Int := none
  entities : List String := []
  sources : List String := []
  confidence : ℚ := 0
  supporting_events : List String := []
  causal_relationships : List String := []
  event_type : String := ("general")
  importance_score : ℚ := 0
deriving DecidableEq

/-- The `metadata` dict built by `_create_timeline`. -/
structure TimelineMetadata where
  total_events : Nat
  dated_events : Nat
  estimated_dates : Nat
  causal_relationships : Nat
deriving DecidableEq

/-- `Timeline` (src/agents/timeline_construction.py); `metadata` is
`none` for the empty-timeline branch, which leaves the dataclass's
default empty dict. -/
structure Timeline where
  events : List TimelineEvent
  topic : String
  date_range : Option Int × Option Int
  confidence : ℚ
  completeness_score : ℚ
  consistency_score : ℚ
  metadata : Option TimelineMetadata := none
deriving DecidableEq

/-- Case-insensitive-free substring test used to model Python's
`word in description_lower`. -/
def containsSub (needle hay : List Char) : Bool :=
  hay.tails.any (fun t => needle.isPrefixOf t)

/-- Python `str.lower` on the ASCII range. -/
def pyLower (s : String) : List Char :=
  s.data.map Char.toLower

/-- True when any of the words occurs in the lowered description. -/
def anyWordIn (words : List (List Char)) (descLower : List Char) : Bool :=
  words.any (fun w => containsSub w descLower)

/-- `TimelineConstructionAgent._classify_event_type`. -/
def classifyEventType (description : String) : String :=
  let dl := pyLower description
  if anyWordIn [("announced").data, ("announces").data, ("unveiled").data,
      ("revealed").data] dl then ("announcement")
  else if anyWordIn [("acquired").data, ("merger").data, ("deal").data,
      ("purchased").data, ("bought").data] dl then ("transaction")
  else if anyWordIn [("decided").data, ("approved").data, ("voted").data,
      ("ruled").data] dl then ("decision")
  else if anyWordIn [("regulation").data, ("policy").data, ("law").data,
      ("rule").data] dl then ("regulatory")
  else if anyWordIn [("market").data, ("trading").data, ("price").data,
      ("exchange").data] dl then ("market_action")
  else ("general")

/-- One element of one group in the oracle's grouping response: an
integer index (Python ints and bools), or a value whose comparison or
use as a list index raises TypeError (strings, in-range floats, ...),
which aborts the whole grouping to the all-singletons fallback. -/
inductive GroupElem where
  | int (i : Int)
  | bad

/-- One item of the grouping response array: a list of indices, or a
non-list item (skipped both for groups and for used-index tracking). -/
inductive GroupItem where
  | list (elems : List GroupElem)
  | notList

/-- Whether processing the response would raise (some list element is
a TypeError-raising value). -/
def groupsHaveBad (gd : List GroupItem) : Bool :=
  gd.any (fun g =>
    match g with
    | .list es => es.any (fun e => match e with | .bad => true | .int _ => false)
    | .notList => false)

/-- The integer elements of one response list item. -/
def elemInts (es : List GroupElem) : List Int :=
  es.filterMap (fun e => match e with | .int i => some i | .bad => none)

/-- The in-range indices of one response list item (the guarded
comprehension `0 <= i < len(events)`). -/
def inRangeIdx (n : Nat) (es : List GroupElem) : List Nat :=
  (elemInts es).filterMap (fun i => if 0 ≤ i ∧ i < (n : Int) then some i.toNat else none)

/-- The integer indices mentioned by the response's list items
(`used_indices`, kept even when out of range). -/
def mentionedInts (gd : List GroupItem) : List Int :=
  gd.flatMap (fun g =>
    match g with
    | .list es => elemInts es
    | .notList => [])

/-- Index-level model of `_group_similar_events` on `n` input events:
the returned groups hold input positions instead of the events
themselves.  `resp = none` models a failed oracle call. -/
def groupIndices (n : Nat) (resp : Option (List GroupItem)) : List (List Nat) :=
  if n ≤ 1 then [List.range n]
  else
    match resp with
    | none => (List.range n).map (fun i => [i])
    | some gd =>
      if groupsHaveBad gd then (List.range n).map (fun i => [i])
      else
        let groups : List (List Nat) := gd.filterMap (fun g =>
          match g with
          | .list es =>
            let grp := inRangeIdx n es
            if grp = [] then none else some grp
          | .notList => none)
        let used := mentionedInts gd
        let recovered : List (List Nat) := (List.range n).filterMap (fun (i : Nat) =>
          if used.contains (i : Int) then none else some [i])
        groups ++ recovered

/-- `TimelineConstructionAgent._group_similar_events`: the event-level
function; `events[i]` lookups are the guarded comprehension of the
source (`0 <= i < len(events)`). -/
def groupSimilarEvents (events : List ExtractedEvent) (resp : Option (List GroupItem)) :
    List (List ExtractedEvent) :=
  (groupIndices events.length resp).map (fun g => g.filterMap (fun i => events.get? i))

/-- The merge response for a multi-event group, as decoded by the
jsonObject request.  `failure` models a raised/failed call; `empty`
models a falsy or non-dict result (both raise into the fallback);
absent fields model missing keys (`merged_description` missing raises
KeyError into the fallback; the others have `.get` defaults).
Non-numeric `confidence` values, whose `min` raises TypeError into the
fallback, are modelled by `failure`. -/
structure MergeData where
  merged_description : Option String
  primary_date_text : Option String
  all_entities : List String
  event_type : Option String
  confidence : Option ℚ

/-- Oracle outcome for one merge request. -/
inductive MergeResp where
  | failure
  | empty
  | ok (d : MergeData)

/-- First non-null date among the group members (`best_date`,
first-wins). -/
def firstDate (events : List ExtractedEvent) : Option Int :=
  match events.filter (fun e => e.date.isSome) with
  | [] => none
  | e :: _ => e.date

/-- Mean confidence of a non-empty group. -/
def avgConfidence (e : ExtractedEvent) (rest : List ExtractedEvent) : ℚ :=
  (e.confidence + (rest.map (fun x => x.confidence)).sum) / (1 + rest.length)

/-- Deduplicated entity union (`list(set(...))`; Python's set order is
unspecified, and no claim depends on the order). -/
def entityUnion (e : ExtractedEvent) (rest : List ExtractedEvent) : List String :=
  ((e :: rest).flatMap (fun x => x.entities)).dedup

/-- Deduplicated source union (`list(set(event.article_id ...))`). -/
def sourceUnion (e : ExtractedEvent) (rest : List ExtractedEvent) : List String :=
  ((e :: rest).map (fun x => x.article_id)).dedup

/-- `TimelineConstructionAgent._merge_event_group` on a non-empty
group (`e :: rest`; Python errors on an empty group, which the caller
never produces).  `pyHash` models Python's salted string hash, used
only to mint ids. -/
def mergeEventGroup (pyHash : String → Int) (resp : MergeResp)
    (e : ExtractedEvent) (rest : List ExtractedEvent) : TimelineEvent :=
  match rest with
  | [] =>
    { id := ("timeline_event_") ++ toString (pyHash e.description)
      description := e.description
      date := e.date
      date_text := e.date_text
      entities := e.entities
      sources := [e.article_id]
      confidence := e.confidence
      supporting_events := []
      event_type := classifyEventType e.description }
  | _ :: _ =>
    let fallback : TimelineEvent :=
      { id := ("timeline_event_") ++ toString (pyHash e.description)
        description := e.description
        date := e.date
        date_text := e.date_text
        entities := entityUnion e rest
        sources := sourceUnion e rest
        confidence := avgConfidence e rest
        supporting_events := []
        event_type := classifyEventType e.description }
    match resp with
    | .failure => fallback
    | .empty => fallback
    | .ok d =>
      match d.merged_description with
      | none => fallback
      | some desc =>
        let avg := avgConfidence e rest
        { id := ("timeline_event_") ++ toString (pyHash desc)
          description := desc
          date := firstDate (e :: rest)
          date_text := d.primary_date_text.getD ("not specified")
          entities := d.all_entities.dedup
          sources := sourceUnion e rest
          confidence := min (d.confidence.getD avg) avg
          supporting_events := []
          event_type := d.event_type.getD ("general") }

/-- Sort key of `_sort_chronologically`: date, else estimated date,
else `datetime.max`. -/
def sortKey (e : TimelineEvent) : Int :=
  match e.date with
  | some d => d
  | none =>
    match e.estimated_date with
    | some d => d
    | none => dtMax

/-- Stable insertion step: insert before the first element with a key
not smaller than ours. -/
def chronInsert (e : TimelineEvent) : List TimelineEvent → List TimelineEvent
  | [] => [e]
  | b :: l => if sortKey e ≤ sortKey b then e :: b :: l else b :: chronInsert e l

/-- `TimelineConstructionAgent._sort_chronologically`: Python's
`sorted(events, key=get_sort_date)` is a stable sort by the key;
it is modelled by stable insertion sort, which produces the same
(unique stable-sorted) list. -/
def sortChronologically : List TimelineEvent → List TimelineEvent
  | [] => []
  | e :: l => chronInsert e (sortChronologically l)

/-- One entry of the importance-scoring response.  `malformed` covers
entries whose key access or comparison raises (missing keys, non-dict
entries, non-numeric fields), all skipped by the
`except (KeyError, IndexError, TypeError)` handler. -/
inductive ScoreEntry where
  | malformed
  | entry (event_id : Int) (importance_score : ℚ)

/-- Oracle outcome of the scoring request. -/
inductive ScoresResp where
  | failure
  | ok (entries : List ScoreEntry)

/-- Apply one score entry: in-range id and in-range score update the
event in place, anything else is skipped. -/
def applyScore (events : List TimelineEvent) : ScoreEntry → List TimelineEvent
  | .malformed => events
  | .entry idx score =>
    if h : 0 ≤ idx ∧ idx < (events.length : Int) ∧ 0 ≤ score ∧ score ≤ 1 then
      events.set idx.toNat { events.get ⟨idx.toNat, by omega⟩ with importance_score := score }
    else events

/-- `TimelineConstructionAgent._score_importance`: empty input is
returned as is; a failed request sets every score to 0.5; otherwise
the entries are applied in order. -/
def scoreImportance (events : List TimelineEvent) (resp : ScoresResp) : List TimelineEvent :=
  if events.isEmpty then events
  else
    match resp with
    | .failure => events.map (fun e => { e with importance_score := (0.5 : ℚ) })
    | .ok entries => entries.foldl applyScore events

/-- The importance cutoff of `_create_timeline`. -/
def importanceThreshold : ℚ := 0.3

/-- Lines 548-554 of `_create_timeline`: keep the events meeting the
cutoff, unless none does, in which case all events are kept. -/
def survivingEvents (events : List TimelineEvent) : List TimelineEvent :=
  let relevant := events.filter (fun e => importanceThreshold ≤ e.importance_score)
  if !relevant.isEmpty then relevant else events

/-- `date or estimated_date` for an event known to have one of them. -/
def dateOrEstimate (e : TimelineEvent) : Option Int :=
  match e.date with
  | some d => some d
  | none => e.estimated_date

/-- `TimelineConstructionAgent._calculate_completeness`. -/
def calculateCompleteness (events : List TimelineEvent) : ℚ :=
  if events.isEmpty then 0
  else
    let datedRatio : ℚ :=
      ((events.filter (fun e => e.date.isSome || e.estimated_date.isSome)).length : ℚ) /
        (events.length : ℚ)
    min 1 (datedRatio * (1.2 : ℚ))

/-- `TimelineConstructionAgent._calculate_consistency`. -/
def calculateConsistency (events : List TimelineEvent) : ℚ :=
  if events.length < 2 then 1
  else if (events.filter (fun e => e.date.isSome || e.estimated_date.isSome)).length < 2 then
    (0.8 : ℚ)
  else (0.9 : ℚ)

/-- `TimelineConstructionAgent._create_timeline`. -/
def createTimeline (events0 : List TimelineEvent) (topic : String) : Timeline :=
  let events := survivingEvents events0
  if events.isEmpty then
    { events := []
      topic := topic
      date_range := (none, none)
      confidence := 0
      completeness_score := 0
      consistency_score := 0
      metadata := none }
  else
    let datedEvents := events.filter (fun e => e.date.isSome || e.estimated_date.isSome)
    let dates := datedEvents.filterMap dateOrEstimate
    let dateRange : Option Int × Option Int :=
      if !datedEvents.isEmpty then (dates.min?, dates.max?) else (none, none)
    let avgConf : ℚ := ((events.map (fun e => e.confidence)).sum) / (events.length : ℚ)
    { events := events
      topic := topic
      date_range := dateRange
      confidence := avgConf
      completeness_score := calculateCompleteness events
      consistency_score := calculateConsistency events
      metadata := some
        { total_events := events.length
          dated_events := (events.filter (fun e => e.date.isSome)).length
          estimated_dates := (events.filter (fun e => e.estimated_date.isSome)).length
          causal_relationships := (events.map (fun e => e.causal_relationships.length)).sum } }

/-- C10: for every call to prompt_llm the caller-supplied max_tokens
argument has no effect — the effective token limit sent to the oracle
is always the constant 100000000 assigned at the start of the
function — and the rejection of non-positive max_tokens is unreachable
for any argument value. -/
theorem c10_max_tokens_ignored :
    ∀ (mt : Option Int) (d : Int) (cfg : LLMSettings) (oracle : Nat → OracleReply)
      (prompt : String) (temp : Option ℚ) (ot : OutputType) (st : Bool) (mt2 : Option Int),
      effectiveMaxTokens mt d = 100000000 ∧
      ¬ effectiveMaxTokens mt d ≤ 0 ∧
      promptLLM cfg oracle prompt temp mt ot st = promptLLM cfg oracle prompt temp mt2 ot st := by
  intro mt d cfg oracle prompt temp ot st mt2
  refine ⟨rfl, ?_, rfl⟩
  show ¬ (100000000 : Int) ≤ 0
  decide

/-- C9: merging a singleton group preserves the RawEvent's
description, entities and confidence exactly, and the sources list is
exactly the source article id. -/
theorem c9_singleton_roundtrip :
    ∀ (pyHash : String → Int) (resp : MergeResp) (e : ExtractedEvent),
      (mergeEventGroup pyHash resp e []).description = e.description ∧
      (mergeEventGroup pyHash resp e []).entities = e.entities ∧
      (mergeEventGroup pyHash resp e []).confidence = e.confidence ∧
      (mergeEventGroup pyHash resp e []).sources = [e.article_id] := by
  intro pyHash resp e
  exact ⟨rfl, rfl, rfl, rfl⟩

/-- C6: on every merge path (singleton copy, oracle merge with the
min-cap, and the fallback), the merged confidence is at most the
arithmetic mean of the group members' confidences. -/
theorem c6_merge_confidence_le_mean :
    ∀ (pyHash : String → Int) (resp : MergeResp) (e : ExtractedEvent)
      (rest : List ExtractedEvent),
      (mergeEventGroup pyHash resp e rest).confidence ≤ avgConfidence e rest := by
  intro pyHash resp e rest
  cases rest with
  | nil => simp [mergeEventGroup, avgConfidence]
  | cons r rs =>
    cases resp with
    | failure => exact le_refl _
    | empty => exact le_refl _
    | ok d =>
      cases h : d.merged_description with
      | none => simp [mergeEventGroup, h]
      | some desc =>
        simp only [mergeEventGroup, h]
        exact min_le_right _ _

/-- A concrete event below the importance cutoff. -/
def lowEvent : TimelineEvent :=
  { id := "e1", description := "low importance event", date := none,
    date_text := "nd", importance_score := (0.1 : ℚ) }

/-- A concrete event above the importance cutoff. -/
def highEvent : TimelineEvent :=
  { id := "e2", description := "high importance event", date := some 10,
    date_text := "d", importance_score := (0.9 : ℚ) }

/-- C2 counterexample: with one event below the 0.3 cutoff the
post-filter set is empty, yet `_create_timeline` keeps the event
instead of returning the empty Timeline with zero scores (the filter
result is only adopted when it is non-empty). -/
theorem c2_counterexample :
    lowEvent.importance_score < importanceThreshold ∧
    (createTimeline [lowEvent] ("t")).events = [lowEvent] := by
  constructor
  · norm_num [lowEvent, importanceThreshold]
  · have h : ([lowEvent].filter (fun e => importanceThreshold ≤ e.importance_score)) = [] := by
      simp [List.filter, importanceThreshold, lowEvent]
      norm_num
    have hs : survivingEvents [lowEvent] = [lowEvent] := by
      simp [survivingEvents, h]
    simp [createTimeline, hs]

/-- C2 amended: events below the cutoff are dropped only when at least
one event meets the cutoff; when none does, every input event is kept
(scores unchanged); the empty Timeline with all scores zero arises
exactly for empty input. -/
theorem c2_amended (events : List TimelineEvent) (topic : String) :
    (events.filter (fun e => importanceThreshold ≤ e.importance_score) ≠ [] →
      (createTimeline events topic).events =
        events.filter (fun e => importanceThreshold ≤ e.importance_score)) ∧
    (events.filter (fun e => importanceThreshold ≤ e.importance_score) = [] → events ≠ [] →
      (createTimeline events topic).events = events) ∧
    (events = [] →
      createTimeline events topic =
        { events := [], topic := topic, date_range := (none, none),
          confidence := 0, completeness_score := 0, consistency_score := 0,
          metadata := none }) := by
  refine ⟨fun h => ?_, fun h h2 => ?_, fun h => ?_⟩
  · have hfe : (events.filter (fun e => importanceThreshold ≤ e.importance_score)).isEmpty
        = false := by
      simpa [List.isEmpty_iff] using h
    have hs : survivingEvents events =
        events.filter (fun e => importanceThreshold ≤ e.importance_score) := by
      simp [survivingEvents, hfe]
    simp [createTimeline, hs, hfe]
  · have hfe : (events.filter (fun e => importanceThreshold ≤ e.importance_score)).isEmpty
        = true := by
      simp [List.isEmpty_iff, h]
    have hee : events.isEmpty = false := by
      simpa [List.isEmpty_iff] using h2
    have hs : survivingEvents events = events := by
      simp [survivingEvents, hfe]
    simp [createTimeline, hs, hee]
  · subst h
    rfl

/-- C2 witness: the amended theorem applied to the concrete
below-cutoff event. -/
theorem c2_amended_witness : (createTimeline [lowEvent] ("t")).events = [lowEvent] :=
  (c2_amended [lowEvent] ("t")).2.1
    (by simp [List.filter, importanceThreshold, lowEvent]; norm_num) (by simp)

/-- A concrete extracted event. -/
def sampleRaw : ExtractedEvent :=
  { description := "sample raw event text", date := none, date_text := "nd",
    entities := ["X"], confidence := (0.8 : ℚ), article_id := "a1", source_text := "s" }

/-- C3 counterexample: a freshly merged TimelineEvent carries the
dataclass default importance 0.0, and a successful scoring response
that omits it leaves it at 0.0 — not at 0.5 as the claim states. -/
theorem c3_counterexample :
    (mergeEventGroup (fun _ => 0) MergeResp.failure sampleRaw []).importance_score = 0 ∧
    (scoreImportance [mergeEventGroup (fun _ => 0) MergeResp.failure sampleRaw []]
        (ScoresResp.ok [])).map (fun e => e.importance_score) = [0] ∧
    (0 : ℚ) ≠ (0.5 : ℚ) := by
  refine ⟨rfl, rfl, by norm_num⟩

/-- Whether a score entry validly targets position `i` of a list of
length `n` (in-range id, in-range score, id resolving to `i`). -/
def entryTargets (n i : Nat) : ScoreEntry → Prop
  | .malformed => False
  | .entry idx score =>
    0 ≤ idx ∧ idx < (n : Int) ∧ 0 ≤ score ∧ score ≤ 1 ∧ idx.toNat = i

/-- Applying one score entry never changes the list length. -/
theorem applyScore_length (events : List TimelineEvent) (ent : ScoreEntry) :
    (applyScore events ent).length = events.length := by
  cases ent with
  | malformed => rfl
  | entry idx score =>
    simp only [applyScore]
    split
    · exact List.length_set events _ _
    · rfl

/-- Applying one score entry leaves untargeted positions unchanged. -/
theorem applyScore_get_untargeted (events : List TimelineEvent) (ent : ScoreEntry) (i : Nat)
    (h : ¬ entryTargets events.length i ent) :
    (applyScore events ent)[i]? = events[i]? := by
  cases ent with
  | malformed => rfl
  | entry idx score =>
    simp only [applyScore]
    split
    case isTrue hv =>
      have hne : idx.toNat ≠ i := by
        intro he
        exact h ⟨hv.1, hv.2.1, hv.2.2.1, hv.2.2.2, he⟩
      exact List.getElem?_set_ne hne
    case isFalse hv => rfl

/-- Folding score entries leaves untargeted positions unchanged. -/
theorem foldl_applyScore_untargeted (entries : List ScoreEntry)
    (events : List TimelineEvent) (i : Nat)
    (h : ∀ ent ∈ entries, ¬ entryTargets events.length i ent) :
    (entries.foldl applyScore events)[i]? = events[i]? := by
  induction entries generalizing events with
  | nil => rfl
  | cons ent rest ih =>
    have h1 : ¬ entryTargets events.length i ent := h ent (by simp)
    have hlen : (applyScore events ent).length = events.length :=
      applyScore_length events ent
    have h2 : ∀ e ∈ rest, ¬ entryTargets (applyScore events ent).length i e := by
      intro e he
      rw [hlen]
      exact h e (by simp [he])
    calc (List.foldl applyScore (applyScore events ent) rest)[i]?
        = (applyScore events ent)[i]? := ih (applyScore events ent) h2
      _ = events[i]? := applyScore_get_untargeted events ent i h1

/-- C3 amended: an event whose entry is missing, out of range, or has
an out-of-range score keeps its previous importance, and the engine's
default for a freshly merged event is 0.0, not 0.5; only a totally
failed scoring request sets every event's score to 0.5 uniformly. -/
theorem c3_amended (events : List TimelineEvent) (entries : List ScoreEntry) (i : Nat)
    (h : ∀ ent ∈ entries, ¬ entryTargets events.length i ent) :
    ((scoreImportance events (ScoresResp.ok entries))[i]?.map
        (fun e => e.importance_score)) =
      (events[i]?.map (fun e => e.importance_score)) ∧
    (∀ (pyHash : String → Int) (resp : MergeResp) (e : ExtractedEvent)
        (rest : List ExtractedEvent),
        (mergeEventGroup pyHash resp e rest).importance_score = 0) ∧
    scoreImportance events ScoresResp.failure =
      (if events.isEmpty then events
       else events.map (fun e => { e with importance_score := (0.5 : ℚ) })) := by
  refine ⟨?_, ?_, rfl⟩
  · simp only [scoreImportance]
    split
    · rfl
    · rw [foldl_applyScore_untargeted entries events i h]
  · intro pyHash resp e rest
    cases rest with
    | nil => rfl
    | cons r rs =>
      cases resp with
      | failure => rfl
      | empty => rfl
      | ok d =>
        cases hd : d.merged_description with
        | none => simp [mergeEventGroup, hd]
        | some desc => simp [mergeEventGroup, hd]

/-- C3 witness: the amended theorem at a concrete merged event and an
empty (successfully parsed) scoring response. -/
theorem c3_amended_witness :
    ((scoreImportance [mergeEventGroup (fun _ => 0) MergeResp.failure sampleRaw []]
        (ScoresResp.ok []))[0]?.map (fun e => e.importance_score)) =
      (([mergeEventGroup (fun _ => 0) MergeResp.failure sampleRaw []])[0]?.map
        (fun e => e.importance_score)) :=
  (c3_amended [mergeEventGroup (fun _ => 0) MergeResp.failure sampleRaw []] [] 0
    (by simp)).1

/-- C4 counterexample: with one surviving and one dropped event the
metadata reports 1 total event, not the pre-drop total 2. -/
theorem c4_counterexample :
    ((createTimeline [highEvent, lowEvent] ("t")).metadata).map (fun m => m.total_events) =
      some 1 ∧
    ([highEvent, lowEvent] : List TimelineEvent).length = 2 := by
  constructor
  · have h : ([highEvent, lowEvent].filter
        (fun e => importanceThreshold ≤ e.importance_score)) = [highEvent] := by
      simp [List.filter, importanceThreshold, highEvent, lowEvent]
      norm_num
    have hs : survivingEvents [highEvent, lowEvent] = [highEvent] := by
      simp [survivingEvents, h]
    simp [createTimeline, hs]
  · rfl

/-- The surviving-events list is non-empty whenever the input is. -/
theorem survivingEvents_ne_nil (events : List TimelineEvent) (h : events ≠ []) :
    survivingEvents events ≠ [] := by
  simp only [survivingEvents]
  split
  case isTrue hb =>
    intro hc
    rw [hc] at hb
    simp at hb
  case isFalse hb => exact h

/-- C4 amended: the metadata counts are computed over the surviving
(post-importance-filter) events — exactly the final Timeline's events
list — not over the pre-drop set. -/
theorem c4_amended (events : List TimelineEvent) (topic : String) (h : events ≠ []) :
    ∃ m, (createTimeline events topic).metadata = some m ∧
      m.total_events = (createTimeline events topic).events.length ∧
      m.dated_events =
        ((createTimeline events topic).events.filter (fun e => e.date.isSome)).length ∧
      m.estimated_dates =
        ((createTimeline events topic).events.filter
          (fun e => e.estimated_date.isSome)).length ∧
      m.causal_relationships =
        ((createTimeline events topic).events.map
          (fun e => e.causal_relationships.length)).sum := by
  have hs : (survivingEvents events).isEmpty = false := by
    have := survivingEvents_ne_nil events h
    simpa [List.isEmpty_iff] using this
  refine ⟨{ total_events := (survivingEvents events).length,
            dated_events := ((survivingEvents events).filter (fun e => e.date.isSome)).length,
            estimated_dates :=
              ((survivingEvents events).filter (fun e => e.estimated_date.isSome)).length,
            causal_relationships :=
              ((survivingEvents events).map (fun e => e.causal_relationships.length)).sum },
    ?_, ?_, ?_, ?_, ?_⟩ <;> simp [createTimeline, hs]

/-- C4 witness: the amended theorem at a concrete two-event input. -/
theorem c4_amended_witness :
    ∃ m, (createTimeline [highEvent, lowEvent] ("t")).metadata = some m ∧
      m.total_events = (createTimeline [highEvent, lowEvent] ("t")).events.length ∧
      m.dated_events =
        ((createTimeline [highEvent, lowEvent] ("t")).events.filter
          (fun e => e.date.isSome)).length ∧
      m.estimated_dates =
        ((createTimeline [highEvent, lowEvent] ("t")).events.filter
          (fun e => e.estimated_date.isSome)).length ∧
      m.causal_relationships =
        ((createTimeline [highEvent, lowEvent] ("t")).events.map
          (fun e => e.causal_relationships.length)).sum :=
  c4_amended [highEvent, lowEvent] ("t") (by simp)

/-- C5 counterexample: a grouping response that repeats index 0 across
two groups puts index 0 into two output groups, so the output is not a
partition of the input indices. -/
theorem c5_counterexample :
    groupIndices 2 (some [GroupItem.list [GroupElem.int 0], GroupItem.list [GroupElem.int 0]]) =
      [[0], [0], [1]] ∧
    ¬ List.Pairwise (fun a b => ∀ i ∈ a, i ∉ b)
      (groupIndices 2
        (some [GroupItem.list [GroupElem.int 0], GroupItem.list [GroupElem.int 0]])) := by
  constructor
  · rfl
  · decide

/-- Dropping empty groups does not change the concatenation of the
groups that `_group_similar_events` builds from the response. -/
theorem flatten_groups_eq (n : Nat) (gd : List GroupItem) :
    (gd.filterMap (fun g =>
      match g with
      | GroupItem.list es =>
        let grp := inRangeIdx n es
        if grp = [] then none else some grp
      | GroupItem.notList => none)).flatten
    = gd.flatMap (fun g =>
        match g with
        | GroupItem.list es => inRangeIdx n es
        | GroupItem.notList => []) := by
  induction gd with
  | nil => rfl
  | cons g rest ih =>
    cases g with
    | notList => simpa using ih
    | list es =>
      by_cases hg : inRangeIdx n es = []
      · simp [hg, ih]
      · simp [hg, ih]

/-- For an in-range target index, the range-guarded comprehension
keeps exactly the mentions of that index. -/
theorem count_inRangeGuard (n i : Nat) (hi : i < n) (l : List Int) :
    (l.filterMap (fun j => if 0 ≤ j ∧ j < (n : Int) then some j.toNat else none)).count i
      = l.count (i : Int) := by
  induction l with
  | nil => rfl
  | cons j rest ih =>
    by_cases hj : 0 ≤ j ∧ j < (n : Int)
    · rw [List.filterMap_cons_some (by rw [if_pos hj])]
      by_cases hij : (i : Int) = j
      · have h1 : j.toNat = i := by omega
        rw [h1, List.count_cons_self, ← hij, List.count_cons_self, ih]
      · have h1 : i ≠ j.toNat := by omega
        rw [List.count_cons_of_ne h1, List.count_cons_of_ne hij, ih]
    · rw [List.filterMap_cons_none (by rw [if_neg hj])]
      have hij : (i : Int) ≠ j := by omega
      rw [List.count_cons_of_ne hij, ih]

/-- The index groups built from the response mention each in-range
index exactly as often as the response does. -/
theorem count_groupLists (n i : Nat) (hi : i < n) (gd : List GroupItem) :
    (gd.flatMap (fun g => match g with
      | GroupItem.list es => inRangeIdx n es
      | GroupItem.notList => [])).count i
    = (mentionedInts gd).count (i : Int) := by
  induction gd with
  | nil => rfl
  | cons g rest ih =>
    cases g with
    | notList => simpa [mentionedInts] using ih
    | list es =>
      simp only [List.flatMap_cons, mentionedInts, List.count_append]
      simp only [mentionedInts] at ih
      rw [ih, show inRangeIdx n es =
        (elemInts es).filterMap
          (fun j => if 0 ≤ j ∧ j < (n : Int) then some j.toNat else none) from rfl,
        count_inRangeGuard n i hi]

/-- The singleton-recovery loop contributes exactly the unmentioned
indices. -/
theorem flatten_recovered (used : List Int) (l : List Nat) :
    ((l.filterMap (fun (j : Nat) =>
        if used.contains (j : Int) then none else some [j])).flatten)
      = l.filter (fun (j : Nat) => !(used.contains (j : Int))) := by
  induction l with
  | nil => rfl
  | cons j rest ih =>
    cases hj : used.contains ((j : Nat) : Int) with
    | true =>
      rw [List.filterMap_cons_none (by rw [hj]; rfl),
        List.filter_cons_of_neg (by rw [hj]; simp), ih]
    | false =>
      rw [List.filterMap_cons_some (by rw [hj]; rfl),
        List.filter_cons_of_pos (by rw [hj]; rfl)]
      simpa using ih

/-- Count of an in-range index among the recovered singletons. -/
theorem count_recovered (n i : Nat) (hi : i < n) (used : List Int) :
    ((List.range n).filter (fun (j : Nat) => !(used.contains (j : Int)))).count i
      = if used.contains (i : Int) then 0 else 1 := by
  cases hu : used.contains ((i : Nat) : Int) with
  | true =>
    have hz : ((List.range n).filter
        (fun (j : Nat) => !(used.contains (j : Int)))).count i = 0 := by
      rw [List.count_eq_zero]
      intro hmem
      have h2 := (List.mem_filter.mp hmem).2
      rw [hu] at h2
      simp at h2
    rw [hz]
    simp
  | false =>
    rw [List.count_filter (by rw [hu]; rfl)]
    rw [List.count_eq_one_of_mem (List.nodup_range n) (List.mem_range.mpr hi)]
    simp

/-- Every member of a range-guarded group is an in-range index. -/
theorem mem_inRangeIdx_lt (n : Nat) (es : List GroupElem) (i : Nat)
    (h : i ∈ inRangeIdx n es) : i < n := by
  obtain ⟨j, _, hj⟩ := List.mem_filterMap.mp h
  by_cases hr : 0 ≤ j ∧ j < (n : Int)
  · rw [if_pos hr] at hj
    have := Option.some.inj hj
    omega
  · rw [if_neg hr] at hj
    exact absurd hj (by simp)

/-- C5 amended: the union of the returned groups is always exactly the
full input index set and the oracle's total failure yields all
singleton groups, but the output need not be a partition: an index is
duplicated exactly as often as the oracle repeats it (its multiplicity
across all groups is the number of its mentions, or 1 when omitted). -/
theorem c5_amended (n : Nat) (gd : List GroupItem) (hn : 2 ≤ n)
    (hbad : groupsHaveBad gd = false) :
    (∀ i : Nat, (∃ g ∈ groupIndices n (some gd), i ∈ g) ↔ i < n) ∧
    (∀ i : Nat, i < n →
      (groupIndices n (some gd)).flatten.count i =
        max 1 ((mentionedInts gd).count (i : Int))) ∧
    groupIndices n none = (List.range n).map (fun i => [i]) := by
  have hn1 : ¬ n ≤ 1 := by omega
  have hgi : groupIndices n (some gd) =
      (gd.filterMap (fun g =>
        match g with
        | GroupItem.list es =>
          let grp := inRangeIdx n es
          if grp = [] then none else some grp
        | GroupItem.notList => none)) ++
      ((List.range n).filterMap (fun (i : Nat) =>
        if (mentionedInts gd).contains (i : Int) then none else some [i])) := by
    simp [groupIndices, hn1, hbad]
  have hflat : (groupIndices n (some gd)).flatten =
      (gd.flatMap (fun g => match g with
        | GroupItem.list es => inRangeIdx n es
        | GroupItem.notList => [])) ++
      ((List.range n).filter
        (fun (j : Nat) => !((mentionedInts gd).contains (j : Int)))) := by
    rw [hgi, List.flatten_append, flatten_groups_eq, flatten_recovered]
  have hcount : ∀ i : Nat, i < n →
      (groupIndices n (some gd)).flatten.count i =
        max 1 ((mentionedInts gd).count (i : Int)) := by
    intro i hi
    rw [hflat, List.count_append, count_groupLists n i hi, count_recovered n i hi]
    cases hc : (mentionedInts gd).contains ((i : Nat) : Int) with
    | true =>
      have hp : 0 < (mentionedInts gd).count ((i : Nat) : Int) := by
        rw [List.count_pos_iff]
        simpa using hc
      show (mentionedInts gd).count ((i : Nat) : Int) + 0 =
        max 1 ((mentionedInts gd).count ((i : Nat) : Int))
      omega
    | false =>
      have hz : (mentionedInts gd).count ((i : Nat) : Int) = 0 := by
        rw [List.count_eq_zero]
        intro hm
        have hcc : (mentionedInts gd).contains ((i : Nat) : Int) = true := by simpa using hm
        rw [hc] at hcc
        exact absurd hcc (by simp)
      show (mentionedInts gd).count ((i : Nat) : Int) + 1 =
        max 1 ((mentionedInts gd).count ((i : Nat) : Int))
      omega
  refine ⟨?_, hcount, by simp [groupIndices, hn1]⟩
  intro i
  constructor
  · rintro ⟨g, hg, hig⟩
    rw [hgi] at hg
    rcases List.mem_append.mp hg with hg1 | hg2
    · obtain ⟨item, _, hitem⟩ := List.mem_filterMap.mp hg1
      cases item with
      | notList => exact absurd hitem (by simp)
      | list es =>
        by_cases hgr : inRangeIdx n es = []
        · simp [hgr] at hitem
        · simp only [hgr, if_neg] at hitem
          have hge : inRangeIdx n es = g := by simpa [hgr] using hitem
          exact mem_inRangeIdx_lt n es i (hge ▸ hig)
    · obtain ⟨j, hj, hjeq⟩ := List.mem_filterMap.mp hg2
      cases hc : (mentionedInts gd).contains ((j : Nat) : Int) with
      | true =>
        rw [hc] at hjeq
        exact absurd hjeq (by simp)
      | false =>
        rw [hc] at hjeq
        have hgj : g = [j] := by simpa using hjeq.symm
        have : i = j := by
          rw [hgj] at hig
          simpa using hig
        rw [this]
        exact List.mem_range.mp hj
  · intro hi
    have hc := hcount i hi
    have hpos : 0 < (groupIndices n (some gd)).flatten.count i := by omega
    have hmem : i ∈ (groupIndices n (some gd)).flatten := List.count_pos_iff.mp hpos
    exact List.mem_flatten.mp hmem

/-- C5 witness: the amended theorem at a concrete in-range response. -/
theorem c5_amended_witness :
    (∀ i : Nat,
      (∃ g ∈ groupIndices 2 (some [GroupItem.list [GroupElem.int 0]]), i ∈ g) ↔ i < 2) ∧
    (∀ i : Nat, i < 2 →
      (groupIndices 2 (some [GroupItem.list [GroupElem.int 0]])).flatten.count i =
        max 1 ((mentionedInts [GroupItem.list [GroupElem.int 0]]).count (i : Int))) ∧
    groupIndices 2 none = (List.range 2).map (fun i => [i]) :=
  c5_amended 2 [GroupItem.list [GroupElem.int 0]] (by omega) (by decide)

/-- An event with neither a date nor an estimated date. -/
def isUndated (e : TimelineEvent) : Bool :=
  e.date.isNone && e.estimated_date.isNone

/-- A concrete undated event. -/
def undatedEv : TimelineEvent :=
  { id := "u", description := "undated event", date := none, date_text := "n" }

/-- A concrete event dated exactly at datetime.max. -/
def maxDatedEv : TimelineEvent :=
  { id := "m", description := "dated at datetime.max", date := some dtMax, date_text := "m" }

/-- C7 counterexample: an event dated exactly datetime.max ties with
the undated sentinel key, so the stable sort leaves the earlier
undated event before it — a dated event ends up after an undated one. -/
theorem c7_counterexample :
    sortChronologically [undatedEv, maxDatedEv] = [undatedEv, maxDatedEv] ∧
    undatedEv.date = none ∧ undatedEv.estimated_date = none ∧
    maxDatedEv.date.isSome = true := by
  refine ⟨by decide, rfl, rfl, rfl⟩

/-- Inserting preserves being a permutation. -/
theorem chronInsert_perm (e : TimelineEvent) (l : List TimelineEvent) :
    List.Perm (chronInsert e l) (e :: l) := by
  induction l with
  | nil => exact List.Perm.refl _
  | cons b m ih =>
    by_cases hb : sortKey e ≤ sortKey b
    · rw [chronInsert, if_pos hb]
    · rw [chronInsert, if_neg hb]
      exact List.Perm.trans (List.Perm.cons b ih) (List.Perm.swap e b m)

/-- The sort output is a permutation of its input. -/
theorem sortChronologically_perm (l : List TimelineEvent) :
    List.Perm (sortChronologically l) l := by
  induction l with
  | nil => exact List.Perm.refl _
  | cons e m ih =>
    exact List.Perm.trans (chronInsert_perm e (sortChronologically m)) (List.Perm.cons e ih)

/-- Inserting preserves key-sortedness. -/
theorem chronInsert_pairwise (e : TimelineEvent) (l : List TimelineEvent)
    (h : List.Pairwise (fun a b => sortKey a ≤ sortKey b) l) :
    List.Pairwise (fun a b => sortKey a ≤ sortKey b) (chronInsert e l) := by
  induction l with
  | nil => simp [chronInsert]
  | cons b m ih =>
    obtain ⟨hb, hm⟩ := List.pairwise_cons.mp h
    by_cases he : sortKey e ≤ sortKey b
    · rw [chronInsert, if_pos he]
      refine List.pairwise_cons.mpr ⟨?_, h⟩
      intro x hx
      rcases List.mem_cons.mp hx with hx1 | hx2
      · rw [hx1]; exact he
      · exact le_trans he (hb x hx2)
    · rw [chronInsert, if_neg he]
      refine List.pairwise_cons.mpr ⟨?_, ih hm⟩
      intro x hx
      rcases List.mem_cons.mp ((chronInsert_perm e m).mem_iff.mp hx) with hx1 | hx2
      · rw [hx1]; exact le_of_not_le he
      · exact hb x hx2

/-- The sort output is sorted by the sentinel key. -/
theorem sortChronologically_pairwise (l : List TimelineEvent) :
    List.Pairwise (fun a b => sortKey a ≤ sortKey b) (sortChronologically l) := by
  induction l with
  | nil => simp [sortChronologically]
  | cons e m ih => exact chronInsert_pairwise e (sortChronologically m) ih

/-- Inserting an element with the filtered key prepends it to the
filter (stability: it lands before no equal-key element). -/
theorem filter_chronInsert_eq (e : TimelineEvent) (l : List TimelineEvent) (k : Int)
    (he : sortKey e = k) :
    (chronInsert e l).filter (fun x => sortKey x == k) =
      e :: l.filter (fun x => sortKey x == k) := by
  induction l with
  | nil => simp [chronInsert, he]
  | cons b m ih =>
    by_cases hb : sortKey e ≤ sortKey b
    · rw [chronInsert, if_pos hb, List.filter_cons_of_pos (by simp [he])]
    · have hbk : ¬ sortKey b = k := by
        intro hc
        apply hb
        rw [he, hc]
      rw [chronInsert, if_neg hb, List.filter_cons_of_neg (by simp [hbk]), ih,
        List.filter_cons_of_neg (by simp [hbk])]

/-- Inserting an element with a different key leaves the filter
unchanged. -/
theorem filter_chronInsert_ne (e : TimelineEvent) (l : List TimelineEvent) (k : Int)
    (he : ¬ sortKey e = k) :
    (chronInsert e l).filter (fun x => sortKey x == k) =
      l.filter (fun x => sortKey x == k) := by
  induction l with
  | nil => simp [chronInsert, he]
  | cons b m ih =>
    by_cases hb : sortKey e ≤ sortKey b
    · rw [chronInsert, if_pos hb, List.filter_cons_of_neg (by simp [he])]
    · by_cases hbk : sortKey b = k
      · rw [chronInsert, if_neg hb, List.filter_cons_of_pos (by simp [hbk]),
          List.filter_cons_of_pos (by simp [hbk]), ih]
      · rw [chronInsert, if_neg hb, List.filter_cons_of_neg (by simp [hbk]),
          List.filter_cons_of_neg (by simp [hbk]), ih]

/-- Stability: the sort preserves the relative order of equal-key
events. -/
theorem sortChronologically_stable (l : List TimelineEvent) (k : Int) :
    (sortChronologically l).filter (fun x => sortKey x == k) =
      l.filter (fun x => sortKey x == k) := by
  induction l with
  | nil => rfl
  | cons e m ih =>
    by_cases he : sortKey e = k
    · rw [sortChronologically, filter_chronInsert_eq e _ k he, ih,
        List.filter_cons_of_pos (by simp [he])]
    · rw [sortChronologically, filter_chronInsert_ne e _ k he, ih,
        List.filter_cons_of_neg (by simp [he])]

/-- C7 amended: the sort is a stable total sort ascending by
date ?? estimatedDate ?? datetime.max; provided no event's date or
estimated date equals datetime.max itself, every event with neither is
placed after all dated/estimated events, and relative input order is
preserved among equal-key events and among the undated tail. -/
theorem c7_amended (l : List TimelineEvent)
    (h : ∀ e ∈ l, (∀ d, e.date = some d → d < dtMax) ∧
        (∀ d, e.estimated_date = some d → d < dtMax)) :
    List.Pairwise (fun a b => sortKey a ≤ sortKey b) (sortChronologically l) ∧
    List.Perm (sortChronologically l) l ∧
    (∀ k : Int, (sortChronologically l).filter (fun x => sortKey x == k) =
      l.filter (fun x => sortKey x == k)) ∧
    List.Pairwise (fun a b => ¬(isUndated a = true ∧ isUndated b = false))
      (sortChronologically l) ∧
    (sortChronologically l).filter isUndated = l.filter isUndated := by
  have hperm := sortChronologically_perm l
  have hpair := sortChronologically_pairwise l
  have hkey1 : ∀ e : TimelineEvent, isUndated e = true → sortKey e = dtMax := by
    intro e hu
    have hd : e.date = none := by
      cases hde : e.date <;> simp [isUndated, hde] at hu ⊢
    have hest : e.estimated_date = none := by
      cases hde : e.estimated_date <;> simp [isUndated, hde] at hu ⊢
    simp [sortKey, hd, hest]
  have hkey2 : ∀ e ∈ l, isUndated e = false → sortKey e < dtMax := by
    intro e he hu
    obtain ⟨h1, h2⟩ := h e he
    cases hd : e.date with
    | some d => simpa [sortKey, hd] using h1 d hd
    | none =>
      cases hest : e.estimated_date with
      | some d => simpa [sortKey, hd, hest] using h2 d hest
      | none => simp [isUndated, hd, hest] at hu
  have hc4 : List.Pairwise (fun a b => ¬(isUndated a = true ∧ isUndated b = false))
      (sortChronologically l) := by
    refine hpair.imp_of_mem ?_
    intro a b ha hb hle hab
    obtain ⟨hua, hub⟩ := hab
    have h1 := hkey1 a hua
    have h2 := hkey2 b (hperm.mem_iff.mp hb) hub
    rw [h1] at hle
    omega
  have hc5 : (sortChronologically l).filter isUndated = l.filter isUndated := by
    have e1 : (sortChronologically l).filter isUndated =
        (sortChronologically l).filter (fun x => sortKey x == dtMax) := by
      refine List.filter_congr ?_
      intro x hx
      cases hu : isUndated x with
      | true => simp [hkey1 x hu]
      | false =>
        have hlt := hkey2 x (hperm.mem_iff.mp hx) hu
        have : ¬ sortKey x = dtMax := by omega
        simp [this]
    have e2 : l.filter isUndated = l.filter (fun x => sortKey x == dtMax) := by
      refine List.filter_congr ?_
      intro x hx
      cases hu : isUndated x with
      | true => simp [hkey1 x hu]
      | false =>
        have hlt := hkey2 x hx hu
        have : ¬ sortKey x = dtMax := by omega
        simp [this]
    rw [e1, e2, sortChronologically_stable l dtMax]
  exact ⟨hpair, hperm, fun k => sortChronologically_stable l k, hc4, hc5⟩

/-- C7 witness: the amended theorem at a concrete two-event input with
valid (below-maximum) dates. -/
theorem c7_amended_witness :
    List.Pairwise (fun a b => sortKey a ≤ sortKey b)
      (sortChronologically [lowEvent, highEvent]) ∧
    List.Perm (sortChronologically [lowEvent, highEvent]) [lowEvent, highEvent] ∧
    (∀ k : Int, (sortChronologically [lowEvent, highEvent]).filter
        (fun x => sortKey x == k) =
      ([lowEvent, highEvent] : List TimelineEvent).filter (fun x => sortKey x == k)) ∧
    List.Pairwise (fun a b => ¬(isUndated a = true ∧ isUndated b = false))
      (sortChronologically [lowEvent, highEvent]) ∧
    (sortChronologically [lowEvent, highEvent]).filter isUndated =
      ([lowEvent, highEvent] : List TimelineEvent).filter isUndated :=
  c7_amended [lowEvent, highEvent] (by
    intro e he
    rcases List.mem_cons.mp he with h1 | h2
    · subst h1
      constructor
      · intro d hd
        simp [lowEvent] at hd
      · intro d hd
        simp [lowEvent] at hd
    · have h3 : e = highEvent := by simpa using h2
      subst h3
      constructor
      · intro d hd
        have h4 : d = 10 := by
          have h5 := hd
          simp [highEvent] at h5
          omega
        rw [h4]
        norm_num [dtMax]
      · intro d hd
        simp [highEvent] at hd)

/-- Whether a JSON value is an array. -/
def jsonIsArr : Json → Bool
  | .arr _ => true
  | _ => false

/-- Whether a JSON value is an object. -/
def jsonIsObj : Json → Bool
  | .obj _ => true
  | _ => false

/-- A value parsed from input beginning with '[' is an array. -/
theorem parseJVal_bracket (fuel : Nat) (cs : List Char) (v : Json) (r : List Char)
    (h : parseJVal (fuel + 1) ('[' :: cs) = some (v, r)) : ∃ items, v = Json.arr items := by
  simp only [parseJVal] at h
  rw [if_neg (show ¬('[' = '"') from by decide),
    if_neg (show ¬('[' = '{') from by decide),
    if_pos trivial] at h
  split at h
  · cases h
    exact ⟨[], rfl⟩
  · split at h
    · cases h
      exact ⟨_, rfl⟩
    · exact Option.noConfusion h

/-- A value parsed from input beginning with '{' is an object. -/
theorem parseJVal_brace (fuel : Nat) (cs : List Char) (v : Json) (r : List Char)
    (h : parseJVal (fuel + 1) ('{' :: cs) = some (v, r)) : ∃ fields, v = Json.obj fields := by
  simp only [parseJVal] at h
  rw [if_neg (show ¬('{' = '"') from by decide), if_pos trivial] at h
  split at h
  · cases h
    exact ⟨[], rfl⟩
  · split at h
    · cases h
      exact ⟨_, rfl⟩
    · exact Option.noConfusion h

/-- json.loads of a string beginning with '[' yields an array when it
succeeds. -/
theorem jsonLoads_bracket (cs : List Char) (v : Json)
    (h : jsonLoads ('[' :: cs) = some v) : ∃ items, v = Json.arr items := by
  have h2 : (match parseJVal (('[' :: cs).length + 2) ('[' :: cs) with
    | some (v, rest) => if skipJsonWs rest = [] then some v else none
    | none => none) = some v := h
  clear h
  cases hp : parseJVal (('[' :: cs).length + 2) ('[' :: cs) with
  | none => rw [hp] at h2; exact Option.noConfusion h2
  | some pr =>
    obtain ⟨pv, pr2⟩ := pr
    rw [hp] at h2
    obtain ⟨items, hitems⟩ := parseJVal_bracket (cs.length + 2) cs pv pr2 hp
    have h3 : (if skipJsonWs pr2 = [] then some pv else none) = some v := h2
    split at h3
    · cases h3
      exact ⟨items, hitems⟩
    · exact Option.noConfusion h3

/-- json.loads of a string beginning with '{' yields an object when it
succeeds. -/
theorem jsonLoads_brace (cs : List Char) (v : Json)
    (h : jsonLoads ('{' :: cs) = some v) : ∃ fields, v = Json.obj fields := by
  have h2 : (match parseJVal (('{' :: cs).length + 2) ('{' :: cs) with
    | some (v, rest) => if skipJsonWs rest = [] then some v else none
    | none => none) = some v := h
  clear h
  cases hp : parseJVal (('{' :: cs).length + 2) ('{' :: cs) with
  | none => rw [hp] at h2; exact Option.noConfusion h2
  | some pr =>
    obtain ⟨pv, pr2⟩ := pr
    rw [hp] at h2
    obtain ⟨fields, hfields⟩ := parseJVal_brace (cs.length + 2) cs pv pr2 hp
    have h3 : (if skipJsonWs pr2 = [] then some pv else none) = some v := h2
    split at h3
    · cases h3
      exact ⟨fields, hfields⟩
    · exact Option.noConfusion h3

/-- The comma-cleanup pattern cannot match at a non-comma character. -/
theorem matchCommaClose_nomatch (close c : Char) (cs : List Char) (hc : ¬ c = ',') :
    matchCommaClose close (c :: cs) = none := by
  simp only [matchCommaClose, if_neg hc]

/-- The backslash-n pattern cannot match at a non-backslash character. -/
theorem matchBackslashN_nomatch (c : Char) (cs : List Char) (hc : ¬ c = '\\') :
    matchBackslashN (c :: cs) = none := by
  cases cs with
  | nil => rfl
  | cons d rest =>
    have hcc : ¬ (c = '\\' ∧ d = 'n') := fun h => hc h.1
    simp only [matchBackslashN, if_neg hcc]

/-- The backslash-quote pattern cannot match at a non-backslash
character. -/
theorem matchBackslashQuote_nomatch (c : Char) (cs : List Char) (hc : ¬ c = '\\') :
    matchBackslashQuote (c :: cs) = none := by
  cases cs with
  | nil => rfl
  | cons d rest =>
    have hcc : ¬ (c = '\\' ∧ d = '"') := fun h => hc h.1
    simp only [matchBackslashQuote, if_neg hcc]

/-- The quote-newline-quote pattern cannot match at a non-quote
character. -/
theorem matchQuoteNlQuote_nomatch (c : Char) (cs : List Char) (hc : ¬ c = '"') :
    matchQuoteNlQuote (c :: cs) = none := by
  simp only [matchQuoteNlQuote, if_neg hc]

/-- A substitution pass over a string whose head no pattern matches
keeps that head. -/
theorem applySub_cons_nomatch (m : List Char → Option (Nat × List Char)) (c : Char)
    (cs : List Char) (hm : m (c :: cs) = none) :
    applySub m (c :: cs) = c :: subScan m cs.length cs := by
  show subScan m ((c :: cs).length) (c :: cs) = _
  rw [show (c :: cs).length = cs.length + 1 from rfl]
  simp only [subScan, hm]

/-- Cleaning preserves a leading character that starts none of the five
patterns (in particular '[' and '{'). -/
theorem cleanJsonString_head (c : Char) (cs : List Char)
    (hc1 : ¬ c = ',') (hc2 : ¬ c = '\\') (hc3 : ¬ c = '"') :
    ∃ t, cleanJsonString (c :: cs) = c :: t := by
  simp only [cleanJsonString]
  rw [applySub_cons_nomatch _ _ _ (matchCommaClose_nomatch '}' c cs hc1)]
  rw [applySub_cons_nomatch _ _ _ (matchCommaClose_nomatch ']' c _ hc1)]
  rw [applySub_cons_nomatch _ _ _ (matchBackslashN_nomatch c _ hc2)]
  rw [applySub_cons_nomatch _ _ _ (matchBackslashQuote_nomatch c _ hc2)]
  rw [applySub_cons_nomatch _ _ _ (matchQuoteNlQuote_nomatch c _ hc3)]
  exact ⟨_, rfl⟩

/-- An array span always starts with '['. -/
theorem arraySpan_head (cs sp : List Char) (h : arraySpan cs = some sp) :
    ∃ t, sp = '[' :: t := by
  unfold arraySpan at h
  cases hd : cs.dropWhile (fun c => !(c == '[')) with
  | nil =>
    rw [hd] at h
    exact Option.noConfusion h
  | cons c rest =>
    rw [hd] at h
    have h2 : (match upToLastClose rest with
      | none => none
      | some body => some ('[' :: body)) = some sp := h
    cases hu : upToLastClose rest with
    | none =>
      rw [hu] at h2
      exact Option.noConfusion h2
    | some body =>
      rw [hu] at h2
      have h3 := Option.some.inj h2
      exact ⟨body, h3.symm⟩

/-- An object-regexp match always starts with '{'. -/
theorem matchObjAt_head (cs sp r : List Char) (h : matchObjAt cs = some (sp, r)) :
    ∃ t, sp = '{' :: t := by
  cases cs with
  | nil => exact Option.noConfusion h
  | cons c rest =>
    have h2 : (if c = '{' then
        (match objScanGo (rest.length + 1) rest false with
         | some (body, r) => some ('{' :: body, r)
         | none => none)
      else none) = some (sp, r) := h
    by_cases hc : c = '{'
    · rw [if_pos hc] at h2
      cases hs : objScanGo (rest.length + 1) rest false with
      | none => rw [hs] at h2; exact Option.noConfusion h2
      | some pr =>
        obtain ⟨body, rr⟩ := pr
        rw [hs] at h2
        have h3 := Option.some.inj h2
        exact ⟨body, (congrArg Prod.fst h3).symm⟩
    · rw [if_neg hc] at h2
      exact Option.noConfusion h2

/-- An object span found by the search always starts with '{'. -/
theorem findObjSpan_head (fuel : Nat) (cs sp : List Char)
    (h : findObjSpan fuel cs = some sp) : ∃ t, sp = '{' :: t := by
  induction fuel generalizing cs with
  | zero => exact Option.noConfusion h
  | succ f ih =>
    cases cs with
    | nil => exact Option.noConfusion h
    | cons c rest =>
      rw [findObjSpan] at h
      cases hm : matchObjAt (c :: rest) with
      | some pr =>
        obtain ⟨spn, rr⟩ := pr
        rw [hm] at h
        obtain ⟨t, ht⟩ := matchObjAt_head (c :: rest) spn rr hm
        have h2 := Option.some.inj h
        exact ⟨t, by rw [← h2, ht]⟩
      | none =>
        rw [hm] at h
        exact ih rest h

/-- The json_array post-processing raises (JSONParseError escaping the
decode-error handler) exactly when the whole content parses as valid
JSON of a non-array type. -/
theorem parseJsonArray_error_iff (content : List Char) :
    parseJsonArray content = .error () ↔
      ∃ v, jsonLoads content = some v ∧ jsonIsArr v = false := by
  constructor
  · intro h
    unfold parseJsonArray at h
    cases hl : jsonLoads content with
    | some v =>
      rw [hl] at h
      cases v with
      | arr items =>
        exact absurd (show Except.ok items = (Except.error () : Except Unit (List Json)) from h)
          (by intro hc; cases hc)
      | null => exact ⟨.null, rfl, rfl⟩
      | bool b => exact ⟨.bool b, rfl, rfl⟩
      | num raw => exact ⟨.num raw, rfl, rfl⟩
      | str sv => exact ⟨.str sv, rfl, rfl⟩
      | obj fields => exact ⟨.obj fields, rfl, rfl⟩
    | none =>
      exfalso
      rw [hl] at h
      cases hsp : arraySpan content with
      | none =>
        rw [hsp] at h
        exact Except.noConfusion
          (show Except.ok ([] : List Json) = (Except.error () : Except Unit (List Json)) from h)
      | some span =>
        rw [hsp] at h
        have h2 : (match jsonLoads (cleanJsonString span) with
          | some (.arr items) => (Except.ok items : Except Unit (List Json))
          | some _ => .error ()
          | none => .ok (extractJsonObjectsFromArray (cleanJsonString span))) = .error () := h
        obtain ⟨ts, hts⟩ := arraySpan_head content span hsp
        rw [hts] at h2
        obtain ⟨t2, ht2⟩ := cleanJsonString_head '[' ts (by decide) (by decide) (by decide)
        rw [ht2] at h2
        cases hl2 : jsonLoads ('[' :: t2) with
        | none =>
          rw [hl2] at h2
          exact Except.noConfusion
            (show Except.ok (extractJsonObjectsFromArray ('[' :: t2)) =
              (Except.error () : Except Unit (List Json)) from h2)
        | some v2 =>
          obtain ⟨items, hit⟩ := jsonLoads_bracket t2 v2 hl2
          subst hit
          rw [hl2] at h2
          exact Except.noConfusion
            (show Except.ok items = (Except.error () : Except Unit (List Json)) from h2)
  · rintro ⟨v, hv, hna⟩
    unfold parseJsonArray
    rw [hv]
    cases v with
    | arr items => simp [jsonIsArr] at hna
    | null => rfl
    | bool b => rfl
    | num raw => rfl
    | str sv => rfl
    | obj fields => rfl

/-- The json_object post-processing raises exactly when the whole
content parses as valid JSON of a non-object type. -/
theorem parseJsonObject_error_iff (content : List Char) :
    parseJsonObject content = .error () ↔
      ∃ v, jsonLoads content = some v ∧ jsonIsObj v = false := by
  constructor
  · intro h
    unfold parseJsonObject at h
    cases hl : jsonLoads content with
    | some v =>
      rw [hl] at h
      cases v with
      | obj fields =>
        exact absurd (show Except.ok fields =
            (Except.error () : Except Unit (List (String × Json))) from h)
          (by intro hc; cases hc)
      | null => exact ⟨.null, rfl, rfl⟩
      | bool b => exact ⟨.bool b, rfl, rfl⟩
      | num raw => exact ⟨.num raw, rfl, rfl⟩
      | str sv => exact ⟨.str sv, rfl, rfl⟩
      | arr items => exact ⟨.arr items, rfl, rfl⟩
    | none =>
      exfalso
      rw [hl] at h
      cases hsp : findObjSpan content.length content with
      | none =>
        rw [hsp] at h
        exact Except.noConfusion
          (show Except.ok ([] : List (String × Json)) =
            (Except.error () : Except Unit (List (String × Json))) from h)
      | some span =>
        rw [hsp] at h
        have h2 : (match jsonLoads (cleanJsonString span) with
          | some (.obj fields) => (Except.ok fields : Except Unit (List (String × Json)))
          | some _ => .error ()
          | none => .ok []) = .error () := h
        obtain ⟨ts, hts⟩ := findObjSpan_head content.length content span hsp
        rw [hts] at h2
        obtain ⟨t2, ht2⟩ := cleanJsonString_head '{' ts (by decide) (by decide) (by decide)
        rw [ht2] at h2
        cases hl2 : jsonLoads ('{' :: t2) with
        | none =>
          rw [hl2] at h2
          exact Except.noConfusion
            (show Except.ok ([] : List (String × Json)) =
              (Except.error () : Except Unit (List (String × Json))) from h2)
        | some v2 =>
          obtain ⟨fields, hit⟩ := jsonLoads_brace t2 v2 hl2
          subst hit
          rw [hl2] at h2
          exact Except.noConfusion
            (show Except.ok fields =
              (Except.error () : Except Unit (List (String × Json))) from h2)
  · rintro ⟨v, hv, hna⟩
    unfold parseJsonObject
    rw [hv]
    cases v with
    | obj fields => simp [jsonIsObj] at hna
    | null => rfl
    | bool b => rfl
    | num raw => rfl
    | str sv => rfl
    | arr items => rfl

/-- The retry continuation fails with LLMError precisely when all
remaining attempts fail, given that the current attempt failed. -/
theorem promptLoop_failCont_iff (oracle : Nat → OracleReply) (ot : OutputType) (st : Bool)
    (rem attempt : Nat)
    (hfail : attemptFails (oracle attempt) ot st = true)
    (ih : 1 ≤ rem → (promptLoop oracle ot st rem (attempt + 1) = .error .llmError ↔
        ∀ j, j < rem → attemptFails (oracle (attempt + 1 + j)) ot st = true)) :
    ((if rem = 0 then (.error .llmError : Except PromptErr PromptResult)
      else promptLoop oracle ot st rem (attempt + 1)) = .error .llmError ↔
      ∀ j, j < rem + 1 → attemptFails (oracle (attempt + j)) ot st = true) := by
  by_cases hr : rem = 0
  · subst hr
    rw [if_pos rfl]
    constructor
    · intro _ j hj
      have hj0 : j = 0 := by omega
      subst hj0
      rw [Nat.add_zero]
      exact hfail
    · intro _
      rfl
  · rw [if_neg hr, ih (by omega)]
    constructor
    · intro hall j hj
      cases j with
      | zero =>
        rw [Nat.add_zero]
        exact hfail
      | succ jj =>
        have h2 := hall jj (by omega)
        rw [show attempt + (jj + 1) = attempt + 1 + jj from by omega]
        exact h2
    · intro hall j hj
      have h2 := hall (j + 1) (by omega)
      rw [show attempt + 1 + j = attempt + (j + 1) from by omega]
      exact h2

/-- The retry loop raises LLMError exactly when every attempt fails
(transport failure, empty completion, or escaping parse error). -/
theorem promptLoop_error_iff (oracle : Nat → OracleReply) (ot : OutputType) (st : Bool) :
    ∀ (remaining attempt : Nat), 1 ≤ remaining →
      (promptLoop oracle ot st remaining attempt = .error .llmError ↔
        ∀ j, j < remaining → attemptFails (oracle (attempt + j)) ot st = true) := by
  intro remaining
  induction remaining with
  | zero => intro attempt h; exact absurd h (by omega)
  | succ rem ih =>
    intro attempt _
    have hbody : promptLoop oracle ot st (rem + 1) attempt =
        (match oracle attempt with
         | .transportFail =>
           (if rem = 0 then .error .llmError else promptLoop oracle ot st rem (attempt + 1))
         | .content raw =>
           if raw = "" then
             (if rem = 0 then .error .llmError else promptLoop oracle ot st rem (attempt + 1))
           else
             match processResponse raw ot st with
             | .ok r => .ok r
             | .error _ =>
               (if rem = 0 then .error .llmError
                else promptLoop oracle ot st rem (attempt + 1))) := rfl
    rw [hbody]
    cases horc : oracle attempt with
    | transportFail =>
      refine promptLoop_failCont_iff oracle ot st rem attempt ?_ (fun h => ih (attempt + 1) h)
      rw [horc]
      rfl
    | content raw =>
      show (if raw = "" then
          (if rem = 0 then (.error .llmError : Except PromptErr PromptResult)
           else promptLoop oracle ot st rem (attempt + 1))
        else
          match processResponse raw ot st with
          | .ok r => .ok r
          | .error _ =>
            (if rem = 0 then (.error .llmError : Except PromptErr PromptResult)
             else promptLoop oracle ot st rem (attempt + 1))) = .error .llmError ↔ _
      by_cases hrw : raw = ""
      · rw [if_pos hrw]
        refine promptLoop_failCont_iff oracle ot st rem attempt ?_ (fun h => ih (attempt + 1) h)
        rw [horc]
        unfold attemptFails
        subst hrw
        simp
      · rw [if_neg hrw]
        cases hpr : processResponse raw ot st with
        | ok r =>
          constructor
          · intro hc
            exact absurd hc (by intro hc2; cases hc2)
          · intro hall
            have h0 := hall 0 (by omega)
            rw [Nat.add_zero, horc] at h0
            have h1 : (raw == "" ||
                (match processResponse raw ot st with
                 | Except.ok _ => false
                 | Except.error _ => true)) = true := h0
            rw [hpr] at h1
            simp at h1
            exact absurd h1 hrw
        | error e =>
          refine promptLoop_failCont_iff oracle ot st rem attempt ?_ (fun h => ih (attempt + 1) h)
          rw [horc]
          show (raw == "" ||
              (match processResponse raw ot st with
               | Except.ok _ => false
               | Except.error _ => true)) = true
          rw [hpr]
          simp

/-- C1 counterexample: an oracle that always returns the non-empty,
transport-successful completion "7" (valid JSON of the wrong top-level
type) makes a json_array request raise LLMError after the retries,
although the raw output was never empty and no transport failure
occurred. -/
theorem c1_counterexample :
    promptLLM { defaultTemperature := (1 : ℚ), defaultMaxTokens := 2000, maxRetries := 3 }
      (fun _ => OracleReply.content ("7")) ("give me an array") (some (1 : ℚ)) (some 5000)
      OutputType.jsonArray true = .error PromptErr.llmError ∧
    (∀ a : Nat, (fun _ => OracleReply.content ("7")) a ≠ OracleReply.transportFail) ∧
    ("7" : String) ≠ "" ∧
    jsonLoads ("7").data = some (Json.num ("7")) := by
  refine ⟨by rfl, ?_, by decide, by rfl⟩
  intro a hc
  cases hc

/-- C1 amended: the layer never raises on malformed-but-present JSON
(whole-string decode failure always degrades to a returned value), but
a response that parses as valid JSON of the wrong top-level type
raises JSONParseError past the decode-error handler, and the retry
loop then raises LLMError exactly when every attempt fails — by
transport failure, empty completion, or such a wrong-typed response. -/
theorem c1_amended (content : List Char) (oracle : Nat → OracleReply) (ot : OutputType)
    (st : Bool) (maxR : Nat) (hr : 1 ≤ maxR) :
    (parseJsonArray content = .error () ↔
      ∃ v, jsonLoads content = some v ∧ jsonIsArr v = false) ∧
    (parseJsonObject content = .error () ↔
      ∃ v, jsonLoads content = some v ∧ jsonIsObj v = false) ∧
    (jsonLoads content = none → (∃ l, parseJsonArray content = .ok l) ∧
      (∃ o, parseJsonObject content = .ok o)) ∧
    (promptLoop oracle ot st maxR 0 = .error .llmError ↔
      ∀ j, j < maxR → attemptFails (oracle j) ot st = true) := by
  refine ⟨parseJsonArray_error_iff content, parseJsonObject_error_iff content, ?_, ?_⟩
  · intro hnone
    constructor
    · cases harr : parseJsonArray content with
      | ok l => exact ⟨l, rfl⟩
      | error e =>
        exfalso
        obtain ⟨v, hv, _⟩ := (parseJsonArray_error_iff content).mp (by cases e; exact harr)
        rw [hnone] at hv
        exact Option.noConfusion hv
    · cases hobj : parseJsonObject content with
      | ok o => exact ⟨o, rfl⟩
      | error e =>
        exfalso
        obtain ⟨v, hv, _⟩ := (parseJsonObject_error_iff content).mp (by cases e; exact hobj)
        rw [hnone] at hv
        exact Option.noConfusion hv
  · have h := promptLoop_error_iff oracle ot st maxR 0 hr
    simpa using h

/-- C1 witness: the amended theorem instantiated at the concrete
wrong-typed response "7" and a three-retry loop. -/
theorem c1_amended_witness :
    ((parseJsonArray ("7").data = .error () ↔
      ∃ v, jsonLoads ("7").data = some v ∧ jsonIsArr v = false) ∧
    (parseJsonObject ("7").data = .error () ↔
      ∃ v, jsonLoads ("7").data = some v ∧ jsonIsObj v = false) ∧
    (jsonLoads ("7").data = none → (∃ l, parseJsonArray ("7").data = .ok l) ∧
      (∃ o, parseJsonObject ("7").data = .ok o)) ∧
    (promptLoop (fun _ => OracleReply.content ("7")) OutputType.jsonArray true 3 0 =
        .error .llmError ↔
      ∀ j, j < 3 → attemptFails ((fun _ => OracleReply.content ("7")) j)
        OutputType.jsonArray true = true)) :=
  c1_amended ("7").data (fun _ => OracleReply.content ("7")) OutputType.jsonArray true 3
    (by omega)

/-- C8 counterexample: the content "[x]" contains an array-like span,
yet the json_array path returns the empty list (nothing inside the
span parses), refuting "empty only when no array-like span exists". -/
theorem c8_counterexample :
    (∃ sp, arraySpan ("[x]").data = some sp) ∧
    parseJsonArray ("[x]").data = .ok [] := by
  exact ⟨⟨('[' :: 'x' :: ']' :: []), rfl⟩, rfl⟩

/-- C8 amended: the path returns the empty list when no array-like
span exists; when a span is present but neither the whole content nor
the cleaned span parses, it returns exactly the brace-delimited
objects within the cleaned span that parse — possibly none, so a
present span does not guarantee a non-empty result. -/
theorem c8_amended (content : List Char) :
    (arraySpan content = none → jsonLoads content = none →
      parseJsonArray content = .ok []) ∧
    (∀ sp, arraySpan content = some sp → jsonLoads content = none →
      jsonLoads (cleanJsonString sp) = none →
      parseJsonArray content = .ok (extractJsonObjectsFromArray (cleanJsonString sp)) ∧
      ∀ v ∈ extractJsonObjectsFromArray (cleanJsonString sp), jsonIsObj v = true) := by
  constructor
  · intro hsp hl
    unfold parseJsonArray
    rw [hl, hsp]
  · intro sp hsp hl hl2
    constructor
    · unfold parseJsonArray
      rw [hl, hsp]
      show (match jsonLoads (cleanJsonString sp) with
        | some (.arr items) => (Except.ok items : Except Unit (List Json))
        | some _ => .error ()
        | none => .ok (extractJsonObjectsFromArray (cleanJsonString sp))) = _
      rw [hl2]
    · intro v hv
      unfold extractJsonObjectsFromArray at hv
      obtain ⟨objStr, _, hparse⟩ := List.mem_filterMap.mp hv
      cases hj : jsonLoads objStr with
      | none =>
        rw [hj] at hparse
        exact Option.noConfusion hparse
      | some jv =>
        rw [hj] at hparse
        cases jv with
        | obj fields =>
          have h2 := Option.some.inj (show some (Json.obj fields) = some v from hparse)
          rw [← h2]
          rfl
        | null => exact Option.noConfusion (show (none : Option Json) = some v from hparse)
        | bool b => exact Option.noConfusion (show (none : Option Json) = some v from hparse)
        | num raw => exact Option.noConfusion (show (none : Option Json) = some v from hparse)
        | str sv => exact Option.noConfusion (show (none : Option Json) = some v from hparse)
        | arr items => exact Option.noConfusion (show (none : Option Json) = some v from hparse)

/-- C8 witness: the amended theorem at the concrete content "[x]",
whose span contains nothing parseable. -/
theorem c8_amended_witness :
    parseJsonArray ("[x]").data =
      .ok (extractJsonObjectsFromArray
        (cleanJsonString ('[' :: 'x' :: ']' :: []))) ∧
    ∀ v ∈ extractJsonObjectsFromArray (cleanJsonString ('[' :: 'x' :: ']' :: [])),
      jsonIsObj v = true :=
  (c8_amended ("[x]").data).2 ('[' :: 'x' :: ']' :: []) (by rfl) (by rfl) (by rfl)
